import Mathlib

/-!
Verification of the Innovation SSI-2001 (SID) audio device core,
`src/hardware/innovation.cpp` of dosbox-staging.

The device core is embedded shallowly:

* The reSIDfp chip engine is an external black box; it is modelled by an
  abstract interface `Sid C` over an arbitrary chip-state type `C`.  The busy
  loop `while (!service->clock(1, &sample))` is collapsed into `clock1`, which
  returns the next *produced* sample (the loop is bounded by the chip's fixed
  oversampling ratio and therefore total).
* `double` timestamps and rates are modelled by `ℚ` (exact arithmetic).
* `check_cast<T>` (a checked narrowing that asserts the value fits in `T`,
  from `support.h`) is modelled by `Option`-returning range checks; an
  assertion failure is an `Option.none` / `Except.error` result.
* Fields `g_pushed`, `g_delivered` and `g_clock` are ghost instrumentation:
  they are never read by any operation and only record, respectively, the
  samples pushed to the queue, the samples handed to the mixer channel, and
  the wall-clock time of the latest register write.  Every queued sample is
  paired with a ghost timestamp: the wall-clock time `now` of the register
  write whose catch-up render produced it.
-/

attribute [local semireducible] Rat.add Rat.mul Rat.inv Rat.sub Rat.ofScientific

namespace Innovation

/-- Abstract reSIDfp chip engine over chip-state type `C`: `clock1` clocks the
chip until it produces one output sample (the bounded busy loop of
`Innovation::RenderOnce` collapsed), `write`/`read` access a chip register. -/
structure Sid (C : Type) where
  clock1 : C → ℤ × C
  write : C → ℕ → ℕ → C
  read : C → ℕ → ℕ

/-- Chip model variant: `reSIDfp::MOS6581` or `reSIDfp::MOS8580`. -/
inductive ChipModel where
  | mos6581
  | mos8580
  deriving DecidableEq, Repr

/-- Configuration calls made on the chip engine during `Innovation::Open`:
`setChipModel`, `enableFilter`, `setFilter6581Curve` / `setFilter8580Curve`
and `setSamplingParameters (clock, rate, passband)`, recorded verbatim. -/
structure SidConfig where
  chip_model : ChipModel
  filter_enabled : Bool
  filter_6581_curve : Option ℚ
  filter_8580_curve : Option ℚ
  sampling : Option (ℚ × ℚ × ℚ)
  deriving DecidableEq, Repr

/-- The owned `reSIDfp::SID` service: its recorded configuration plus the
abstract chip state. -/
structure Service (C : Type) where
  cfg : SidConfig
  core : C
  deriving DecidableEq, Repr

/-- The members of class `Innovation` (declared in `innovation.h`).  `fifo`
holds each queued sample together with its ghost timestamp; `g_pushed`,
`g_delivered`, `g_clock` are ghost fields (see the file header). -/
structure State (C : Type) where
  is_open : Bool
  is_enabled : Bool
  chip_clock : ℚ
  frame_rate_per_ms : ℚ
  idle_after_silent_frames : ℤ
  base_port : ℕ
  last_render_time : ℚ
  unwritten_for_ms : ℕ
  silent_frames : ℕ
  fifo : List (ℤ × ℚ)
  service : Option (Service C)
  has_channel : Bool
  channel_enabled : Bool
  ports_installed : Bool
  g_pushed : List ℤ
  g_delivered : List ℤ
  g_clock : ℚ
  deriving DecidableEq, Repr

/-- Modelled from the spec: `innovation.h` (the member declarations) is not
part of `src/`; per the spec an unrecognized clock token leaves the chip
clock "unset", so at program start `chip_clock = 0` and all other members are
zero/false/empty. -/
def init (C : Type) : State C :=
  { is_open := false
    is_enabled := false
    chip_clock := 0
    frame_rate_per_ms := 0
    idle_after_silent_frames := 0
    base_port := 0
    last_render_time := 0
    unwritten_for_ms := 0
    silent_frames := 0
    fifo := []
    service := none
    has_channel := false
    channel_enabled := false
    ports_installed := false
    g_pushed := []
    g_delivered := []
    g_clock := 0 }

/-- Modelled from the spec: `check_cast<int16_t>` (`support.h`, not in
`src/`) is a defensive narrowing whose failure is a fatal assertion (§7 of
the spec); it succeeds exactly when the value fits in a signed 16-bit. -/
def check_cast_i16 (z : ℤ) : Option ℤ :=
  if -32768 ≤ z ∧ z < 32768 then some z else none

/-- Modelled from the spec: `check_cast<uint8_t>` succeeds exactly when the
value fits in one byte. -/
def check_cast_u8 (v : ℕ) : Option ℕ :=
  if v < 256 then some v else none

/-- `static_cast<io_port_t>(port - base_port)`: 16-bit wrap-around
subtraction on port addresses. -/
def sub_u16 (a b : ℕ) : ℕ :=
  (a % 65536 + 65536 - b % 65536) % 65536

/-- Floor of a rational (`q.den` is always positive, so Euclidean division
of the numerator is the floor). -/
def ratFloor (q : ℚ) : ℤ :=
  Int.ediv q.num q.den

/-- Modelled from the spec: `iround` (`support.h`, not in `src/`) rounds to
the nearest integer, halves away from zero (C `lround`). -/
def iround (q : ℚ) : ℤ :=
  if 0 ≤ q then ratFloor (q + 1 / 2) else -ratFloor (1 / 2 - q)

instance {A B : Type} [DecidableEq A] [DecidableEq B] : DecidableEq (Except A B) := fun a b =>
  match a, b with
  | Except.ok x, Except.ok y =>
    if h : x = y then Decidable.isTrue (by rw [h]) else Decidable.isFalse (by simp [h])
  | Except.error x, Except.error y =>
    if h : x = y then Decidable.isTrue (by rw [h]) else Decidable.isFalse (by simp [h])
  | Except.ok _, Except.error _ => Decidable.isFalse (by simp)
  | Except.error _, Except.ok _ => Decidable.isFalse (by simp)

/-- Failure modes of `Innovation::Open`, i.e. the assertions on its path:
`assert(chip_clock)` and the two `check_cast` narrowings. -/
inductive OpenError where
  | assertChipClockZero
  | assertPortRange
  deriving DecidableEq, Repr

/-- `Innovation::Close`: no-op when not open; otherwise disable the channel
(if present), uninstall both port handlers, and release channel and chip
service. -/
def Close {C : Type} (s : State C) : State C :=
  if s.is_open then
    { s with
      channel_enabled := if s.has_channel then false else s.channel_enabled
      ports_installed := false
      has_channel := false
      service := none
      is_open := false }
  else s

/-- `Innovation::Open`.  Arguments mirror the source, plus the sample rate
the mixer channel reports (`frame_rate_hz`) and a fresh chip state `c0` (the
newly constructed `reSIDfp::SID`).  Returns the new member state, or the
assertion that failed. -/
def Open {C : Type} (model_choice clock_choice : String)
    (filter_strength_6581 filter_strength_8580 : ℤ)
    (port_choice : ℕ) (frame_rate_hz : ℕ) (c0 : C) (s : State C) :
    Except OpenError (State C) :=
  let s := Close s
  if model_choice = "none" then Except.ok s else
  let fstr := if model_choice = "8580" then filter_strength_8580
              else filter_strength_6581
  let model := if model_choice = "8580" then ChipModel.mos8580
               else ChipModel.mos6581
  let cfg0 : SidConfig :=
    { chip_model := model
      filter_enabled := decide (0 < fstr)
      filter_6581_curve :=
        if model = ChipModel.mos6581 ∧ 0 < fstr then some ((fstr : ℚ) / 100)
        else none
      filter_8580_curve :=
        if model = ChipModel.mos8580 ∧ 0 < fstr then some ((fstr : ℚ) / 100)
        else none
      sampling := none }
  let clk : ℚ :=
    if clock_choice = "default" then 894886.25
    else if clock_choice = "c64ntsc" then 1022727.14
    else if clock_choice = "c64pal" then 985250
    else if clock_choice = "hardsid" then 1000000
    else s.chip_clock
  if clk = 0 then Except.error OpenError.assertChipClockZero else
  let fr : ℚ := (frame_rate_hz : ℚ) / 1000
  let iasf := iround (fr * 200)
  let passband : ℚ := 9 / 10 * (frame_rate_hz : ℚ) / 2
  let cfg : SidConfig := { cfg0 with sampling := some (clk, (frame_rate_hz : ℚ), passband) }
  if port_choice < 65536 then
    Except.ok
      { s with
        chip_clock := clk
        frame_rate_per_ms := fr
        idle_after_silent_frames := iasf
        base_port := port_choice
        ports_installed := true
        has_channel := true
        channel_enabled := false
        service := some { cfg := cfg, core := c0 }
        last_render_time := 0
        unwritten_for_ms := 0
        silent_frames := 0
        is_enabled := false
        is_open := true }
  else Except.error OpenError.assertPortRange

/-- `Innovation::ReadFromPort`: delegate to the chip at offset
`port - base_port`. -/
def ReadFromPort {C : Type} (E : Sid C) (port : ℕ) (s : State C) : Option ℕ :=
  s.service.map fun sv => E.read sv.core (sub_u16 port s.base_port)

/-- `Innovation::RenderOnce`: clock the chip until it produces a sample; a
zero sample increments `silent_frames` and is returned as 0; a non-zero
sample resets `silent_frames` and is doubled through
`check_cast<int16_t>`. -/
def RenderOnce {C : Type} (E : Sid C) (s : State C) : Option (ℤ × State C) :=
  match s.service with
  | none => none
  | some sv =>
    let p := E.clock1 sv.core
    let s1 := { s with service := some { sv with core := p.2 } }
    if p.1 = 0 then
      some (0, { s1 with silent_frames := s1.silent_frames + 1 })
    else
      match check_cast_i16 (p.1 * 2) with
      | some v => some (v, { s1 with silent_frames := 0 })
      | none => none

/-- The loop of `Innovation::RenderForMs`: push `n` samples rendered by
`RenderOnce` onto the fifo.  `ts` is the ghost timestamp (the wall-clock
time of the register write driving this render). -/
def renderPush {C : Type} (E : Sid C) (ts : ℚ) : ℕ → State C → Option (State C)
  | 0, s => some s
  | n + 1, s =>
    match RenderOnce E s with
    | none => none
    | some (v, s1) =>
      renderPush E ts n
        { s1 with fifo := s1.fifo ++ [(v, ts)], g_pushed := s1.g_pushed ++ [v] }

/-- `Innovation::RenderForMs`: render `iround(duration_ms * frame_rate_per_ms)`
samples into the fifo (a non-positive count renders nothing). -/
def RenderForMs {C : Type} (E : Sid C) (duration_ms : ℚ) (ts : ℚ) (s : State C) :
    Option (State C) :=
  renderPush E ts (iround (duration_ms * s.frame_rate_per_ms)).toNat s

/-- `Innovation::ConvertFramesToMs`. -/
def ConvertFramesToMs {C : Type} (frames : ℕ) (s : State C) : ℚ :=
  (frames : ℚ) / s.frame_rate_per_ms

/-- `Innovation::WriteToPort` at wall-clock time `now` (`PIC_FullIndex()`).
If the channel is not enabled, enable it (`assert(channel)`); otherwise
catch-up render for `now - last_render_time`.  Then set `last_render_time`
(and the ghost write clock) to `now`, narrow the value to a byte, write it to
the chip, and reset `unwritten_for_ms`. -/
def WriteToPort {C : Type} (E : Sid C) (now : ℚ) (port val : ℕ) (s : State C) :
    Option (State C) :=
  let step1 : Option (State C) :=
    if s.is_enabled then RenderForMs E (now - s.last_render_time) now s
    else if s.has_channel then
      some { s with channel_enabled := true, is_enabled := true }
    else none
  match step1 with
  | none => none
  | some s1 =>
    let s2 := { s1 with last_render_time := now, g_clock := now }
    match check_cast_u8 val, s2.service with
    | some data, some sv =>
      some { s2 with
        service := some { sv with core := E.write sv.core (sub_u16 port s2.base_port) data }
        unwritten_for_ms := 0 }
    | _, _ => none

/-- The drain loop of `Innovation::MixerCallBack`:
`while (requested_frames && fifo.size())` deliver `fifo.front()` and pop. -/
def drainLoop {C : Type} : ℕ → State C → List ℤ × State C
  | 0, s => ([], s)
  | n + 1, s =>
    match s.fifo with
    | [] => ([], s)
    | x :: rest =>
      let p := drainLoop n { s with fifo := rest, g_delivered := s.g_delivered ++ [x.1] }
      (x.1 :: p.1, p.2)

/-- The underrun loop of `Innovation::MixerCallBack`: synthesize `n` frames
via `RenderOnce` and deliver them directly, bypassing the fifo. -/
def renderDeliver {C : Type} (E : Sid C) : ℕ → State C → Option (List ℤ × State C)
  | 0, s => some ([], s)
  | n + 1, s =>
    match RenderOnce E s with
    | none => none
    | some (v, s1) =>
      match renderDeliver E n { s1 with g_delivered := s1.g_delivered ++ [v] } with
      | none => none
      | some (out, s2) => some (v :: out, s2)

/-- The delivery phase of `Innovation::MixerCallBack` (everything before the
idle check): drain the fifo, and on a shortfall advance `last_render_time`
by the shortfall converted to ms and synthesize the rest directly. -/
def pullDeliver {C : Type} (E : Sid C) (requested_frames : ℕ) (s : State C) :
    Option (List ℤ × State C) :=
  let d := drainLoop requested_frames s
  let rem := requested_frames - d.1.length
  if rem = 0 then some d
  else
    let s1 := { d.2 with
      last_render_time := d.2.last_render_time + ConvertFramesToMs rem d.2 }
    match renderDeliver E rem s1 with
    | none => none
    | some (out, s2) => some (d.1 ++ out, s2)

/-- `Innovation::MixerCallBack`: the delivery phase followed by the idle
check `if (unwritten_for_ms++ > idle_after_ms && silent_frames >
idle_after_silent_frames)` which disables the channel; the post-increment
compares the old counter value and increments unconditionally. -/
def MixerCallBack {C : Type} (E : Sid C) (requested_frames : ℕ) (s : State C) :
    Option (List ℤ × State C) :=
  match pullDeliver E requested_frames s with
  | none => none
  | some (out, s2) =>
    let s3 := { s2 with unwritten_for_ms := s2.unwritten_for_ms + 1 }
    if 200 < s2.unwritten_for_ms ∧ s2.idle_after_silent_frames < (s2.silent_frames : ℤ) then
      some (out, { s3 with channel_enabled := false, is_enabled := false })
    else
      some (out, s3)

/-- The chip engine's output contract (spec §4.1/§7): every produced sample
is a signed 16-bit value whose doubling still fits in 16 bits. -/
def EngineOk {C : Type} (E : Sid C) : Prop :=
  ∀ c : C, -16384 ≤ (E.clock1 c).1 ∧ (E.clock1 c).1 ≤ 16383

/-- States reachable from program start by one initial open followed by
register writes and mixer pulls.  Register writes carry a monotone
wall-clock time: `PIC_FullIndex()` never decreases, so each write's `now` is
at least the time of the latest earlier write (ghost `g_clock`). -/
inductive ReachM {C : Type} (E : Sid C) : State C → Prop where
  | boot (model clock : String) (f1 f2 : ℤ) (port hz : ℕ) (c0 : C) (s' : State C) :
      Open model clock f1 f2 port hz c0 (init C) = Except.ok s' → ReachM E s'
  | write (s : State C) (now : ℚ) (port val : ℕ) (s' : State C) :
      ReachM E s → s.g_clock ≤ now →
      WriteToPort E now port val s = some s' → ReachM E s'
  | pull (s : State C) (n : ℕ) (out : List ℤ) (s' : State C) :
      ReachM E s → MixerCallBack E n s = some (out, s') → ReachM E s'

/-- States reachable from program start by opens, register writes and mixer
pulls in which no pull underruns (each pull requests at most the number of
queued samples). -/
inductive ReachNU {C : Type} (E : Sid C) : State C → Prop where
  | start : ReachNU E (init C)
  | reopen (s : State C) (model clock : String) (f1 f2 : ℤ) (port hz : ℕ)
      (c0 : C) (s' : State C) :
      ReachNU E s → Open model clock f1 f2 port hz c0 s = Except.ok s' →
      ReachNU E s'
  | write (s : State C) (now : ℚ) (port val : ℕ) (s' : State C) :
      ReachNU E s → WriteToPort E now port val s = some s' → ReachNU E s'
  | pull (s : State C) (n : ℕ) (out : List ℤ) (s' : State C) :
      ReachNU E s → n ≤ s.fifo.length →
      MixerCallBack E n s = some (out, s') → ReachNU E s'

/-- A trivial chip engine whose every produced sample is 0. -/
def E0 : Sid Unit :=
  { clock1 := fun _ => (0, ())
    write := fun c _ _ => c
    read := fun _ _ => 0 }

/-- A chip engine that always produces the sample −16384 (the most negative
value whose doubling still fits in a signed 16-bit). -/
def Eneg : Sid Unit :=
  { clock1 := fun _ => (-16384, ())
    write := fun c _ _ => c
    read := fun _ _ => 0 }

/-- A chip engine that always produces the sample 16384 (whose doubling
does not fit in a signed 16-bit). -/
def Ebig : Sid Unit :=
  { clock1 := fun _ => (16384, ())
    write := fun c _ _ => c
    read := fun _ _ => 0 }

/-- Extract the state of a successful `Open`, falling back to the initial
state (the accompanying theorems separately assert success). -/
def okD (x : Except OpenError (State Unit)) : State Unit :=
  match x with
  | Except.ok s => s
  | Except.error _ => init Unit

/-- Extract the state of a successful operation, falling back to the initial
state (the accompanying theorems separately assert success). -/
def someD (x : Option (State Unit)) : State Unit :=
  x.getD (init Unit)

/-- A freshly opened instance: SID 6581, default clock, 50% filters, port
0x280, mixer sample rate 1000 Hz (so `frame_rate_per_ms = 1`). -/
def sOpen : State Unit :=
  okD (Open "6581" "default" 50 50 640 1000 () (init Unit))

/-- `sOpen` after a register write at time 0 (enables the channel). -/
def sW1 : State Unit :=
  someD (WriteToPort E0 0 640 24 sOpen)

/-- `sW1` after a register write at time 2 (renders 2 samples into the
queue). -/
def sW2 : State Unit :=
  someD (WriteToPort E0 2 640 24 sW1)

/-- `sW2` re-opened with the same configuration. -/
def sReopen : State Unit :=
  okD (Open "6581" "default" 50 50 640 1000 () sW2)

/-- `sOpen` re-opened with an unrecognized clock token. -/
def sBogus : State Unit :=
  okD (Open "6581" "bogus" 50 50 640 1000 () sOpen)

/-- A fresh open with the 8580 model and 8580 filter strength 37. -/
def s8580 : State Unit :=
  okD (Open "8580" "default" 50 37 640 1000 () (init Unit))

/-- `sW2` after a register write at time 3. -/
def sW3 : State Unit :=
  someD (WriteToPort E0 3 640 24 sW2)

/-- The result of a one-frame mixer pull on `sW2`. -/
def pull1 : List ℤ × State Unit :=
  (MixerCallBack E0 1 sW2).getD ([], init Unit)

/-- The chip service owned by `sOpen`. -/
def svOpen : Service Unit :=
  (sOpen.service).getD
    { cfg := { chip_model := ChipModel.mos6581, filter_enabled := false,
               filter_6581_curve := none, filter_8580_curve := none, sampling := none }
      core := () }

end Innovation

open Innovation

theorem renderOnce_shape {C : Type} (E : Sid C) {s : State C} {v : ℤ} {s' : State C}
    (h : RenderOnce E s = some (v, s')) :
    ∃ (sv : Service C) (sf : ℕ), s' = { s with service := some sv, silent_frames := sf } := by
  cases hsv : s.service with
  | none => simp only [RenderOnce, hsv] at h; exact Option.noConfusion h
  | some sv =>
    simp only [RenderOnce, hsv] at h
    split at h
    · simp only [Option.some.injEq, Prod.mk.injEq] at h
      exact ⟨_, _, h.2.symm⟩
    · split at h
      · simp only [Option.some.injEq, Prod.mk.injEq] at h
        exact ⟨_, _, h.2.symm⟩
      · exact absurd h (by simp)

theorem renderOnce_isSome {C : Type} (E : Sid C) (hE : EngineOk E) (s : State C)
    (hsv : s.service.isSome = true) :
    (RenderOnce E s).isSome = true := by
  rw [Option.isSome_iff_exists] at hsv
  obtain ⟨sv, hsv⟩ := hsv
  simp only [RenderOnce, hsv]
  by_cases hz : (E.clock1 sv.core).1 = 0
  · simp [hz]
  · have hb := hE sv.core
    have hcast : check_cast_i16 ((E.clock1 sv.core).1 * 2) = some ((E.clock1 sv.core).1 * 2) := by
      unfold check_cast_i16
      rw [if_pos]
      constructor <;> omega
    simp [hz, hcast]

theorem renderOnce_service {C : Type} (E : Sid C) {s : State C} {v : ℤ} {s' : State C}
    (h : RenderOnce E s = some (v, s')) : s'.service.isSome = true := by
  obtain ⟨sv, sf, rfl⟩ := renderOnce_shape E h
  rfl

theorem renderPush_spec {C : Type} (E : Sid C) (ts : ℚ) :
    ∀ (n : ℕ) (s s' : State C), renderPush E ts n s = some s' →
      (∃ l : List (ℤ × ℚ), l.length = n ∧ (∀ p ∈ l, p.2 = ts) ∧
        s'.fifo = s.fifo ++ l ∧ s'.g_pushed = s.g_pushed ++ l.map Prod.fst) ∧
      s'.last_render_time = s.last_render_time ∧ s'.g_clock = s.g_clock ∧
      s'.unwritten_for_ms = s.unwritten_for_ms ∧ s'.is_enabled = s.is_enabled ∧
      s'.g_delivered = s.g_delivered ∧ s'.frame_rate_per_ms = s.frame_rate_per_ms ∧
      s'.idle_after_silent_frames = s.idle_after_silent_frames ∧
      s'.base_port = s.base_port := by
  intro n
  induction n with
  | zero =>
    intro s s' h
    simp only [renderPush, Option.some.injEq] at h
    subst h
    exact ⟨⟨[], rfl, by simp, by simp, by simp⟩, rfl, rfl, rfl, rfl, rfl, rfl, rfl, rfl⟩
  | succ n ih =>
    intro s s' h
    simp only [renderPush] at h
    cases hro : RenderOnce E s with
    | none => rw [hro] at h; exact Option.noConfusion h
    | some p =>
      obtain ⟨v, s1⟩ := p
      simp only [hro] at h
      obtain ⟨sv, sf, hs1⟩ := renderOnce_shape E hro
      subst hs1
      obtain ⟨⟨l, hlen, hts, hfifo, hpush⟩, hlrt, hclk, hunw, hen, hdel, hfr, hiasf, hbp⟩ :=
        ih _ _ h
      refine ⟨⟨(v, ts) :: l, by simp [hlen], ?_, ?_, ?_⟩,
        hlrt, hclk, hunw, hen, hdel, hfr, hiasf, hbp⟩
      · intro q hq
        rcases List.mem_cons.mp hq with hq | hq
        · rw [hq]
        · exact hts q hq
      · exact hfifo.trans (by simp)
      · exact hpush.trans (by simp)

theorem drainLoop_spec {C : Type} :
    ∀ (n : ℕ) (s : State C),
      (drainLoop n s).1 = (s.fifo.take n).map Prod.fst ∧
      (drainLoop n s).2.fifo = s.fifo.drop n ∧
      (drainLoop n s).2.g_delivered = s.g_delivered ++ (s.fifo.take n).map Prod.fst ∧
      (drainLoop n s).2.last_render_time = s.last_render_time ∧
      (drainLoop n s).2.g_clock = s.g_clock ∧
      (drainLoop n s).2.unwritten_for_ms = s.unwritten_for_ms ∧
      (drainLoop n s).2.is_enabled = s.is_enabled ∧
      (drainLoop n s).2.g_pushed = s.g_pushed ∧
      (drainLoop n s).2.silent_frames = s.silent_frames ∧
      (drainLoop n s).2.frame_rate_per_ms = s.frame_rate_per_ms ∧
      (drainLoop n s).2.idle_after_silent_frames = s.idle_after_silent_frames ∧
      (drainLoop n s).2.service = s.service := by
  intro n
  induction n with
  | zero => intro s; simp [drainLoop]
  | succ n ih =>
    intro s
    cases hf : s.fifo with
    | nil => simp [drainLoop, hf]
    | cons x rest =>
      obtain ⟨h1, h2, h3, h4, h5, h6, h7, h8, h9, h10, h11, h12⟩ :=
        ih { s with fifo := rest, g_delivered := s.g_delivered ++ [x.1] }
      simp only [drainLoop, hf]
      exact ⟨by simp [h1], by simp [h2], by simp [h3], by simp [h4], by simp [h5],
        by simp [h6], by simp [h7], by simp [h8], by simp [h9], by simp [h10],
        by simp [h11], by simp [h12]⟩

theorem renderDeliver_spec {C : Type} (E : Sid C) :
    ∀ (n : ℕ) (s : State C) (out : List ℤ) (s' : State C),
      renderDeliver E n s = some (out, s') →
      out.length = n ∧
      s'.fifo = s.fifo ∧
      s'.g_delivered = s.g_delivered ++ out ∧
      s'.last_render_time = s.last_render_time ∧
      s'.g_clock = s.g_clock ∧
      s'.unwritten_for_ms = s.unwritten_for_ms ∧
      s'.is_enabled = s.is_enabled ∧
      s'.g_pushed = s.g_pushed ∧
      s'.frame_rate_per_ms = s.frame_rate_per_ms ∧
      s'.idle_after_silent_frames = s.idle_after_silent_frames := by
  intro n
  induction n with
  | zero =>
    intro s out s' h
    simp only [renderDeliver, Option.some.injEq, Prod.mk.injEq] at h
    obtain ⟨rfl, rfl⟩ := h
    simp
  | succ n ih =>
    intro s out s' h
    simp only [renderDeliver] at h
    cases hro : RenderOnce E s with
    | none => rw [hro] at h; exact Option.noConfusion h
    | some p =>
      obtain ⟨v, s1⟩ := p
      simp only [hro] at h
      cases hrec : renderDeliver E n
          { s1 with g_delivered := s1.g_delivered ++ [v] } with
      | none => rw [hrec] at h; exact Option.noConfusion h
      | some q =>
        obtain ⟨out2, s2⟩ := q
        rw [hrec] at h
        simp only [Option.some.injEq, Prod.mk.injEq] at h
        obtain ⟨rfl, rfl⟩ := h.symm
        obtain ⟨sv, sf, hs1⟩ := renderOnce_shape E hro
        subst hs1
        obtain ⟨hl, hfifo, hdel, hlrt, hclk, hunw, hen, hpush, hfr, hiasf⟩ := ih _ _ _ hrec
        exact ⟨by simp [hl], by simpa using hfifo, by simpa [List.append_assoc] using hdel,
          by simpa using hlrt, by simpa using hclk, by simpa using hunw, by simpa using hen,
          by simpa using hpush, by simpa using hfr, by simpa using hiasf⟩

theorem renderDeliver_isSome {C : Type} (E : Sid C) (hE : EngineOk E) :
    ∀ (n : ℕ) (s : State C), s.service.isSome = true →
      ∃ out s', renderDeliver E n s = some (out, s') ∧ s'.service.isSome = true := by
  intro n
  induction n with
  | zero => intro s hs; exact ⟨[], s, rfl, hs⟩
  | succ n ih =>
    intro s hs
    have h1 := renderOnce_isSome E hE s hs
    rw [Option.isSome_iff_exists] at h1
    obtain ⟨⟨v, s1⟩, hro⟩ := h1
    have hs1 : s1.service.isSome = true := renderOnce_service E hro
    obtain ⟨out2, s2, hrec, hs2⟩ := ih { s1 with g_delivered := s1.g_delivered ++ [v] } hs1
    refine ⟨v :: out2, s2, ?_, hs2⟩
    simp only [renderDeliver, hro, hrec]

theorem writeToPort_spec {C : Type} (E : Sid C) {now : ℚ} {port val : ℕ} {s s' : State C}
    (h : WriteToPort E now port val s = some s') :
    s'.last_render_time = now ∧ s'.g_clock = now ∧ s'.unwritten_for_ms = 0 ∧
    s'.is_enabled = true ∧ s'.g_delivered = s.g_delivered ∧
    s'.frame_rate_per_ms = s.frame_rate_per_ms ∧
    s'.idle_after_silent_frames = s.idle_after_silent_frames ∧
    s'.base_port = s.base_port ∧
    (s.is_enabled = true →
      ∃ l : List (ℤ × ℚ),
        l.length = (iround ((now - s.last_render_time) * s.frame_rate_per_ms)).toNat ∧
        (∀ p ∈ l, p.2 = now) ∧ s'.fifo = s.fifo ++ l ∧
        s'.g_pushed = s.g_pushed ++ l.map Prod.fst) ∧
    (s.is_enabled = false → s'.fifo = s.fifo ∧ s'.g_pushed = s.g_pushed) := by
  cases hen : s.is_enabled with
  | true =>
    simp only [WriteToPort, hen, if_true] at h
    cases hrm : RenderForMs E (now - s.last_render_time) now s with
    | none => rw [hrm] at h; exact Option.noConfusion h
    | some s1 =>
      rw [hrm] at h
      obtain ⟨⟨l, hlen, hts, hfifo, hpush⟩, hlrt, hclk, hunw, hen1, hdel, hfr, hiasf, hbp⟩ :=
        renderPush_spec E now _ s s1 hrm
      cases hcc : check_cast_u8 val with
      | none => simp only [hcc] at h; exact Option.noConfusion h
      | some data =>
        simp only [hcc] at h
        cases hsv : s1.service with
        | none => simp only [hsv] at h; exact Option.noConfusion h
        | some sv =>
          simp only [hsv] at h
          simp only [Option.some.injEq] at h
          subst h
          refine ⟨rfl, rfl, rfl, by simpa [hen] using hen1, by simpa using hdel,
            by simpa using hfr, by simpa using hiasf, by simpa using hbp,
            fun _ => ⟨l, hlen, hts, by simpa using hfifo, by simpa using hpush⟩,
            fun hcon => Bool.noConfusion hcon⟩
  | false =>
    cases hch : s.has_channel with
    | false => simp [WriteToPort, hen, hch] at h
    | true =>
      cases hcc : check_cast_u8 val with
      | none => simp [WriteToPort, hen, hch, hcc] at h
      | some data =>
        cases hsv : s.service with
        | none => simp [WriteToPort, hen, hch, hcc, hsv] at h
        | some sv =>
          simp only [WriteToPort, hen, hch, hcc, hsv, Bool.false_eq_true, if_false,
            if_true, Option.some.injEq] at h
          subst h
          exact ⟨rfl, rfl, rfl, rfl, rfl, rfl, rfl, rfl,
            fun hcon => Bool.noConfusion hcon,
            fun _ => ⟨rfl, rfl⟩⟩

theorem pullDeliver_spec {C : Type} (E : Sid C) {n : ℕ} {s : State C} {out : List ℤ}
    {mid : State C} (h : pullDeliver E n s = some (out, mid)) :
    mid.unwritten_for_ms = s.unwritten_for_ms ∧
    mid.g_clock = s.g_clock ∧
    mid.is_enabled = s.is_enabled ∧
    mid.g_pushed = s.g_pushed ∧
    mid.frame_rate_per_ms = s.frame_rate_per_ms ∧
    mid.idle_after_silent_frames = s.idle_after_silent_frames ∧
    mid.g_delivered = s.g_delivered ++ out ∧
    (n ≤ s.fifo.length →
      out = (s.fifo.take n).map Prod.fst ∧
      mid.fifo = s.fifo.drop n ∧
      mid.last_render_time = s.last_render_time ∧
      mid.silent_frames = s.silent_frames ∧
      mid.service = s.service) ∧
    (s.fifo.length < n →
      ∃ fresh : List ℤ, out = s.fifo.map Prod.fst ++ fresh ∧
        fresh.length = n - s.fifo.length ∧
        mid.fifo = [] ∧
        mid.last_render_time =
          s.last_render_time + ((n - s.fifo.length : ℕ) : ℚ) / s.frame_rate_per_ms) := by
  obtain ⟨d1, d2, d3, d4, d5, d6, d7, d8, d9, d10, d11, d12⟩ := drainLoop_spec n s
  simp only [pullDeliver] at h
  by_cases hle : n ≤ s.fifo.length
  · have hrem : n - (drainLoop n s).1.length = 0 := by
      rw [d1]
      simp only [List.length_map, List.length_take]
      omega
    rw [hrem, if_pos rfl] at h
    simp only [Option.some.injEq] at h
    have hout : out = (drainLoop n s).1 := by rw [h]
    have hmid : mid = (drainLoop n s).2 := by rw [h]
    subst hout
    subst hmid
    refine ⟨d6, d5, d7, d8, d10, d11, by rw [d3, d1], fun _ => ⟨d1, d2, d4, d9, d12⟩,
      fun hlt => absurd hle (by omega)⟩
  · push_neg at hle
    have hrem : n - (drainLoop n s).1.length = n - s.fifo.length := by
      rw [d1]
      simp only [List.length_map, List.length_take]
      omega
    rw [hrem, if_neg (by omega)] at h
    cases hrd : renderDeliver E (n - s.fifo.length)
        { (drainLoop n s).2 with
          last_render_time := (drainLoop n s).2.last_render_time +
            ConvertFramesToMs (n - s.fifo.length) (drainLoop n s).2 } with
    | none => rw [hrd] at h; exact Option.noConfusion h
    | some q =>
      obtain ⟨out2, s2⟩ := q
      rw [hrd] at h
      simp only [Option.some.injEq, Prod.mk.injEq] at h
      obtain ⟨rfl, rfl⟩ := h
      obtain ⟨rl, rfifo, rdel, rlrt, rclk, runw, ren, rpush, rfr, riasf⟩ :=
        renderDeliver_spec E _ _ _ _ hrd
      have htake : (s.fifo.take n).map Prod.fst = s.fifo.map Prod.fst := by
        rw [List.take_of_length_le (by omega)]
      have hdrop : s.fifo.drop n = [] := List.drop_eq_nil_of_le (by omega)
      refine ⟨by simp only [runw]; rw [d6], by simp only [rclk]; rw [d5],
        by simp only [ren]; rw [d7], by simp only [rpush]; rw [d8],
        by simp only [rfr]; rw [d10], by simp only [riasf]; rw [d11],
        ?_, fun hcon => absurd hcon (by omega), fun _ => ⟨out2, ?_, rl, ?_, ?_⟩⟩
      · rw [rdel]
        simp only [d3, d1, htake]
        simp [List.append_assoc]
      · rw [d1, htake]
      · rw [rfifo]
        simp only [d2, hdrop]
      · rw [rlrt]
        simp only [ConvertFramesToMs, d4, d10]

theorem mixerCallBack_spec {C : Type} (E : Sid C) {n : ℕ} {s : State C} {out : List ℤ}
    {s' : State C} (h : MixerCallBack E n s = some (out, s')) :
    ∃ mid, pullDeliver E n s = some (out, mid) ∧
      s'.unwritten_for_ms = mid.unwritten_for_ms + 1 ∧
      s'.fifo = mid.fifo ∧ s'.last_render_time = mid.last_render_time ∧
      s'.g_clock = mid.g_clock ∧ s'.g_pushed = mid.g_pushed ∧
      s'.g_delivered = mid.g_delivered ∧ s'.silent_frames = mid.silent_frames ∧
      s'.frame_rate_per_ms = mid.frame_rate_per_ms ∧
      s'.idle_after_silent_frames = mid.idle_after_silent_frames ∧
      s'.service = mid.service ∧
      s'.is_enabled = (if 200 < mid.unwritten_for_ms ∧
          mid.idle_after_silent_frames < (mid.silent_frames : ℤ) then false
        else mid.is_enabled) := by
  cases hpd : pullDeliver E n s with
  | none => simp only [MixerCallBack, hpd] at h; exact Option.noConfusion h
  | some q =>
    obtain ⟨out2, mid⟩ := q
    simp only [MixerCallBack, hpd] at h
    by_cases hcond : 200 < mid.unwritten_for_ms ∧
        mid.idle_after_silent_frames < (mid.silent_frames : ℤ)
    · rw [if_pos hcond] at h
      simp only [Option.some.injEq, Prod.mk.injEq] at h
      obtain ⟨rfl, rfl⟩ := h
      exact ⟨mid, rfl, rfl, rfl, rfl, rfl, rfl, rfl, rfl, rfl, rfl, rfl,
        (if_pos hcond).symm⟩
    · rw [if_neg hcond] at h
      simp only [Option.some.injEq, Prod.mk.injEq] at h
      obtain ⟨rfl, rfl⟩ := h
      exact ⟨mid, rfl, rfl, rfl, rfl, rfl, rfl, rfl, rfl, rfl, rfl, rfl,
        (if_neg hcond).symm⟩

theorem pullDeliver_isSome {C : Type} (E : Sid C) (hE : EngineOk E) (n : ℕ) (s : State C)
    (hsv : s.service.isSome = true) :
    ∃ out mid, pullDeliver E n s = some (out, mid) ∧ mid.service.isSome = true := by
  obtain ⟨d1, d2, d3, d4, d5, d6, d7, d8, d9, d10, d11, d12⟩ := drainLoop_spec n s
  by_cases hrem : n - (drainLoop n s).1.length = 0
  · refine ⟨(drainLoop n s).1, (drainLoop n s).2, ?_, by rw [d12]; exact hsv⟩
    simp only [pullDeliver, hrem]
    exact if_pos trivial
  · have hs1 : (State.service { (drainLoop n s).2 with
        last_render_time := (drainLoop n s).2.last_render_time +
          ConvertFramesToMs (n - (drainLoop n s).1.length) (drainLoop n s).2 }).isSome = true := by
      show ((drainLoop n s).2.service).isSome = true
      rw [d12]
      exact hsv
    obtain ⟨out2, s2, hrd, hs2⟩ :=
      renderDeliver_isSome E hE (n - (drainLoop n s).1.length) _ hs1
    refine ⟨(drainLoop n s).1 ++ out2, s2, ?_, hs2⟩
    simp only [pullDeliver, if_neg hrem, hrd]

theorem mixerCallBack_isSome {C : Type} (E : Sid C) (hE : EngineOk E) (n : ℕ) (s : State C)
    (hsv : s.service.isSome = true) :
    ∃ out s', MixerCallBack E n s = some (out, s') := by
  obtain ⟨out, mid, hpd, _⟩ := pullDeliver_isSome E hE n s hsv
  by_cases hcond : 200 < mid.unwritten_for_ms ∧
      mid.idle_after_silent_frames < (mid.silent_frames : ℤ)
  · have hgoal : MixerCallBack E n s = some (out,
        { mid with unwritten_for_ms := mid.unwritten_for_ms + 1, channel_enabled := false, is_enabled := false }) := by
      simp only [MixerCallBack, hpd, if_pos hcond]
    exact ⟨out, _, hgoal⟩
  · have hgoal : MixerCallBack E n s = some (out,
        { mid with unwritten_for_ms := mid.unwritten_for_ms + 1 }) := by
      simp only [MixerCallBack, hpd, if_neg hcond]
    exact ⟨out, _, hgoal⟩

theorem close_fields {C : Type} (s : State C) :
    (Close s).fifo = s.fifo ∧ (Close s).g_pushed = s.g_pushed ∧
    (Close s).g_delivered = s.g_delivered ∧ (Close s).g_clock = s.g_clock ∧
    (Close s).last_render_time = s.last_render_time ∧
    (Close s).unwritten_for_ms = s.unwritten_for_ms ∧
    (Close s).silent_frames = s.silent_frames ∧
    (Close s).is_enabled = s.is_enabled ∧
    (Close s).frame_rate_per_ms = s.frame_rate_per_ms ∧
    (Close s).idle_after_silent_frames = s.idle_after_silent_frames ∧
    (Close s).chip_clock = s.chip_clock := by
  unfold Close
  split <;> simp

theorem open_spec {C : Type} {model clock : String} {f1 f2 : ℤ} {port hz : ℕ} {c0 : C}
    {s s' : State C} (h : Open model clock f1 f2 port hz c0 s = Except.ok s') :
    s'.fifo = s.fifo ∧ s'.g_pushed = s.g_pushed ∧ s'.g_delivered = s.g_delivered ∧
    s'.g_clock = s.g_clock ∧
    (model ≠ "none" →
      s'.last_render_time = 0 ∧ s'.unwritten_for_ms = 0 ∧ s'.silent_frames = 0 ∧
      s'.is_enabled = false ∧ s'.service.isSome = true ∧
      s'.idle_after_silent_frames = iround (s'.frame_rate_per_ms * 200) ∧
      s'.frame_rate_per_ms = (hz : ℚ) / 1000) ∧
    (model = "none" → s' = Close s) := by
  obtain ⟨c1, c2, c3, c4, c5, c6, c7, c8, c9, c10, c11⟩ := close_fields s
  simp only [Open] at h
  split at h
  · next hm =>
    simp only [Except.ok.injEq] at h
    subst h
    exact ⟨c1, c2, c3, c4, fun hc => absurd hm hc, fun _ => rfl⟩
  · next hm =>
    repeat' split at h
    all_goals first
      | exact Except.noConfusion h
      | (simp only [Except.ok.injEq] at h
         subst h
         exact ⟨c1, c2, c3, c4,
           fun _ => ⟨rfl, rfl, rfl, rfl, rfl, rfl, rfl⟩, fun hc => absurd hc hm⟩)

theorem renderPush_isSome {C : Type} (E : Sid C) (hE : EngineOk E) (ts : ℚ) :
    ∀ (n : ℕ) (s : State C), s.service.isSome = true →
      ∃ s', renderPush E ts n s = some s' ∧ s'.service.isSome = true := by
  intro n
  induction n with
  | zero => intro s hs; exact ⟨s, rfl, hs⟩
  | succ n ih =>
    intro s hs
    have h1 := renderOnce_isSome E hE s hs
    rw [Option.isSome_iff_exists] at h1
    obtain ⟨⟨v, s1⟩, hro⟩ := h1
    have hs1 : s1.service.isSome = true := renderOnce_service E hro
    obtain ⟨s', hrec, hs'⟩ :=
      ih { s1 with fifo := s1.fifo ++ [(v, ts)], g_pushed := s1.g_pushed ++ [v] } hs1
    refine ⟨s', ?_, hs'⟩
    simp only [renderPush, hro]
    exact hrec

theorem close_is_open {C : Type} (s : State C) : (Close s).is_open = false := by
  unfold Close
  split
  · rfl
  · next ho => simpa using ho

theorem close_not_open {C : Type} (s : State C) (h : s.is_open = false) : Close s = s := by
  unfold Close
  rw [if_neg]
  simp [h]

/-- C6: closing is idempotent — a second close is a no-op on the already
closed instance; after a close of an open instance the channel is disabled
and released, the port handlers are uninstalled and the chip service is
released. -/
theorem c6_close_idempotent {C : Type} (s : State C) :
    Close (Close s) = Close s ∧
    (s.is_open = false → Close s = s) ∧
    (s.is_open = true → s.has_channel = true →
      (Close s).channel_enabled = false ∧ (Close s).ports_installed = false ∧
      (Close s).service = none ∧ (Close s).has_channel = false ∧
      (Close s).is_open = false) := by
  refine ⟨close_not_open _ (close_is_open s), fun h => close_not_open s h, fun ho hc => ?_⟩
  unfold Close
  rw [if_pos ho]
  simp [hc]

theorem c6_close_idempotent_witness :
    Close (Close sOpen) = Close sOpen ∧
    ((Close sOpen).channel_enabled = false ∧ (Close sOpen).ports_installed = false ∧
     (Close sOpen).service = none ∧ (Close sOpen).has_channel = false ∧
     (Close sOpen).is_open = false) :=
  ⟨(c6_close_idempotent sOpen).1,
   (c6_close_idempotent sOpen).2.2 (by decide) (by decide)⟩

/-- C10 (counterexample to the claim as stated): the chip sample −16384 has
magnitude 16384 > 16383, violating the claimed precondition, yet the checked
narrowing succeeds and `RenderOnce` returns −32768 — so the narrowing does
not succeed *only* under that precondition. -/
theorem c10_counterexample :
    (RenderOnce Eneg sOpen).map Prod.fst = some (-32768) ∧
    16383 < ((-16384 : ℤ)).natAbs := by
  constructor
  · decide
  · decide

/-- C10 (amended): `RenderOnce` returns a zero chip sample unchanged as 0
(incrementing `silent_frames`); a non-zero chip sample is doubled and the
checked narrowing to a signed 16-bit succeeds exactly when the sample lies
in [−16384, 16383] (`silent_frames` resets to 0); outside that range the
checked cast fails. -/
theorem c10_render_once_doubles {C : Type} (E : Sid C) (s : State C) (sv : Service C)
    (hsv : s.service = some sv) :
    ((E.clock1 sv.core).1 = 0 →
      ∃ s', RenderOnce E s = some (0, s') ∧ s'.silent_frames = s.silent_frames + 1) ∧
    ((E.clock1 sv.core).1 ≠ 0 → -16384 ≤ (E.clock1 sv.core).1 → (E.clock1 sv.core).1 ≤ 16383 →
      ∃ s', RenderOnce E s = some ((E.clock1 sv.core).1 * 2, s') ∧ s'.silent_frames = 0) ∧
    ((E.clock1 sv.core).1 ≠ 0 → ((E.clock1 sv.core).1 < -16384 ∨ 16383 < (E.clock1 sv.core).1) →
      RenderOnce E s = none) := by
  refine ⟨fun hz => ?_, fun hnz hlo hhi => ?_, fun hnz hout => ?_⟩
  · refine ⟨{ s with service := some { cfg := sv.cfg, core := (E.clock1 sv.core).2 }, silent_frames := s.silent_frames + 1 }, ?_, rfl⟩
    simp only [RenderOnce, hsv, if_pos hz]
  · have hcast : check_cast_i16 ((E.clock1 sv.core).1 * 2) = some ((E.clock1 sv.core).1 * 2) := by
      unfold check_cast_i16
      rw [if_pos]
      constructor <;> omega
    refine ⟨{ s with service := some { cfg := sv.cfg, core := (E.clock1 sv.core).2 }, silent_frames := 0 }, ?_, rfl⟩
    simp only [RenderOnce, hsv, if_neg hnz, hcast]
  · have hcast : check_cast_i16 ((E.clock1 sv.core).1 * 2) = none := by
      unfold check_cast_i16
      rw [if_neg]
      omega
    simp only [RenderOnce, hsv, if_neg hnz, hcast]

theorem c10_render_once_doubles_witness :
    sOpen.service = some svOpen ∧
    ((E0.clock1 svOpen.core).1 = 0 ∧
      ∃ s', RenderOnce E0 sOpen = some (0, s') ∧
        s'.silent_frames = sOpen.silent_frames + 1) ∧
    ((Ebig.clock1 svOpen.core).1 ≠ 0 ∧ RenderOnce Ebig sOpen = none) :=
  ⟨by decide,
   ⟨by decide, (c10_render_once_doubles E0 sOpen svOpen (by decide)).1 (by decide)⟩,
   ⟨by decide, (c10_render_once_doubles Ebig sOpen svOpen (by decide)).2.2 (by decide)
      (by decide)⟩⟩

/-- C7 (counterexample to the claim as stated): after a successful open set
`chip_clock` to 894886.25, a re-open with the unrecognized clock token
"bogus" leaves the stale member value in place, passes the nonzero-clock
assertion and succeeds — so not *every* open with an unrecognized token
fails. -/
theorem c7_counterexample :
    Open "6581" "default" 50 50 640 1000 () (init Unit) = Except.ok sOpen ∧
    Open "6581" "bogus" 50 50 640 1000 () sOpen = Except.ok sBogus ∧
    sBogus.is_open = true ∧ sBogus.chip_clock = 894886.25 := by
  refine ⟨by decide, by decide, by decide, by decide⟩

/-- C7 (amended): an open (model ≠ none) with an unrecognized clock token
fails at the nonzero-clock assertion — before the sampling parameters are
set, a startup failure — exactly when the retained `chip_clock` member is
still zero (as on the first open of the process); the failing branch never
installs a channel, ports or chip service. -/
theorem c7_unrecognized_clock_asserts {C : Type} (model clock : String) (f1 f2 : ℤ)
    (port hz : ℕ) (c0 : C) (s : State C)
    (hm : model ≠ "none") (hclk0 : s.chip_clock = 0)
    (h1 : clock ≠ "default") (h2 : clock ≠ "c64ntsc") (h3 : clock ≠ "c64pal")
    (h4 : clock ≠ "hardsid") :
    Open model clock f1 f2 port hz c0 s = Except.error OpenError.assertChipClockZero := by
  have hc : (Close s).chip_clock = s.chip_clock :=
    (close_fields s).2.2.2.2.2.2.2.2.2.2
  simp only [Open, if_neg hm, if_neg h1, if_neg h2, if_neg h3, if_neg h4]
  rw [hc, hclk0]
  simp

theorem c7_unrecognized_clock_asserts_witness :
    Open "6581" "bogus" 50 50 640 1000 () (init Unit) =
      Except.error OpenError.assertChipClockZero :=
  c7_unrecognized_clock_asserts "6581" "bogus" 50 50 640 1000 () (init Unit)
    (by decide) (by decide) (by decide) (by decide) (by decide) (by decide)

/-- C1 (counterexample to the claim as stated): the device is open but the
channel is not yet enabled; a register write at time 5 (with
`last_render_time = 0` and `frame_rate_per_ms = 1`) should by the claim
render round(5·1) = 5 samples (±1) into the queue before the write, but the
code renders none — the write path only renders when the channel was already
enabled. -/
theorem c1_counterexample :
    sOpen.is_open = true ∧ sOpen.is_enabled = false ∧
    (WriteToPort E0 5 640 0 sOpen).map (fun t => t.fifo.length) = some 0 ∧
    iround ((5 - sOpen.last_render_time) * sOpen.frame_rate_per_ms) = 5 ∧
    ¬ (((0 : ℤ) - 5).natAbs ≤ 1) := by
  refine ⟨by decide, by decide, by decide, by decide, by decide⟩

/-- C1 (amended): for a register write at wall-clock time `now` while the
device is open *and the channel is already enabled*, exactly
`iround((now − last_render_time) · frame_rate_per_ms)` samples (clamped at
0) are rendered into the Output Queue BEFORE the written byte is applied to
the chip — the queue contents of the post-state are produced by the
catch-up render `RenderForMs` from the pre-write state, and the chip write
is applied to the post-render service — and `last_render_time` is then set
to `now`.  (A write while the channel is disabled renders nothing: it
enables the channel, applies the byte, and still sets `last_render_time` to
`now`.) -/
theorem c1_write_renders_before_apply {C : Type} (E : Sid C) (s s' : State C) (now : ℚ)
    (port val : ℕ) (hen : s.is_enabled = true)
    (h : WriteToPort E now port val s = some s') :
    ∃ sr : State C, RenderForMs E (now - s.last_render_time) now s = some sr ∧
      sr.fifo.length = s.fifo.length +
        (iround ((now - s.last_render_time) * s.frame_rate_per_ms)).toNat ∧
      s'.fifo = sr.fifo ∧
      s'.last_render_time = now ∧
      ∃ (sv : Service C) (data : ℕ), sr.service = some sv ∧ check_cast_u8 val = some data ∧
        s'.service = some { cfg := sv.cfg
                            core := E.write sv.core (sub_u16 port s.base_port) data } := by
  simp only [WriteToPort, hen, if_true] at h
  cases hrm : RenderForMs E (now - s.last_render_time) now s with
  | none => rw [hrm] at h; exact Option.noConfusion h
  | some s1 =>
    rw [hrm] at h
    obtain ⟨⟨l, hlen, hts, hfifo, hpush⟩, _, _, _, _, _, _, _, hbp⟩ :=
      renderPush_spec E now _ s s1 hrm
    cases hcc : check_cast_u8 val with
    | none => simp only [hcc] at h; exact Option.noConfusion h
    | some data =>
      simp only [hcc] at h
      cases hsv : s1.service with
      | none => simp only [hsv] at h; exact Option.noConfusion h
      | some sv =>
        simp only [hsv] at h
        simp only [Option.some.injEq] at h
        subst h
        refine ⟨s1, rfl, ?_, rfl, rfl, sv, data, hsv, rfl, ?_⟩
        · rw [hfifo]
          simp [hlen]
        · rw [hbp]

theorem engineOk_E0 : EngineOk E0 := by
  intro c
  constructor <;> norm_num [E0]

theorem c1_write_renders_before_apply_witness :
    ∃ sr : State Unit, RenderForMs E0 ((2 : ℚ) - sW1.last_render_time) 2 sW1 = some sr ∧
      sr.fifo.length = sW1.fifo.length +
        (iround (((2 : ℚ) - sW1.last_render_time) * sW1.frame_rate_per_ms)).toNat ∧
      sW2.fifo = sr.fifo ∧
      sW2.last_render_time = 2 ∧
      ∃ (sv : Service Unit) (data : ℕ), sr.service = some sv ∧
        check_cast_u8 24 = some data ∧
        sW2.service = some { cfg := sv.cfg
                             core := E0.write sv.core (sub_u16 640 sW1.base_port) data } :=
  c1_write_renders_before_apply E0 sW1 sW2 2 640 24 (by decide) (by decide)

/-- C2: a mixer pull requesting `q + k` frames where the queue holds `q`
samples and `k > 0` (with a chip service present and the engine respecting
its output contract) never fails: it delivers exactly the requested number
of frames, the first `q` straight from the queue in order, the last `k`
freshly synthesized and delivered directly (nothing remains queued), and
`last_render_time` advances by exactly `k / frame_rate_per_ms`
milliseconds. -/
theorem c2_underrun_pull {C : Type} (E : Sid C) (s : State C) (k : ℕ)
    (hE : EngineOk E) (hsv : s.service.isSome = true) (hk : 0 < k) :
    ∃ (out fresh : List ℤ) (s' : State C),
      MixerCallBack E (s.fifo.length + k) s = some (out, s') ∧
      out = s.fifo.map Prod.fst ++ fresh ∧
      fresh.length = k ∧
      out.length = s.fifo.length + k ∧
      s'.fifo = [] ∧
      s'.last_render_time = s.last_render_time + (k : ℚ) / s.frame_rate_per_ms := by
  obtain ⟨out, s', hmc⟩ := mixerCallBack_isSome E hE (s.fifo.length + k) s hsv
  obtain ⟨mid, hpd, _, hfifo', hlrt', _, _, _, _, _, _, _, _⟩ := mixerCallBack_spec E hmc
  obtain ⟨_, _, _, _, hfrm, _, _, _, hu⟩ := pullDeliver_spec E hpd
  have hlt : s.fifo.length < s.fifo.length + k := by omega
  obtain ⟨fresh, hout, hflen, hmfifo, hmlrt⟩ := hu hlt
  have hsub : s.fifo.length + k - s.fifo.length = k := by omega
  refine ⟨out, fresh, s', hmc, hout, by omega, ?_, ?_, ?_⟩
  · rw [hout]
    simp only [List.length_append, List.length_map]
    omega
  · rw [hfifo', hmfifo]
  · rw [hlrt', hmlrt, hsub]

theorem c2_underrun_pull_witness :
    ∃ (out fresh : List ℤ) (s' : State Unit),
      MixerCallBack E0 (sW2.fifo.length + 1) sW2 = some (out, s') ∧
      out = sW2.fifo.map Prod.fst ++ fresh ∧
      fresh.length = 1 ∧
      out.length = sW2.fifo.length + 1 ∧
      s'.fifo = [] ∧
      s'.last_render_time = sW2.last_render_time + (1 : ℚ) / sW2.frame_rate_per_ms :=
  c2_underrun_pull E0 sW2 1 engineOk_E0 (by decide) (by decide)

/-- C3: the Enable State and the idle counters evolve exactly as claimed —
every successful register write forces Enabled and resets
`unwritten_for_ms` to 0; every mixer pull increments `unwritten_for_ms` by
exactly one, and flips Enabled → Disabled only at the single idle check
after delivery, exactly when the pre-pull `unwritten_for_ms` exceeds 200
AND the post-delivery `silent_frames` exceeds
`round(200 · frame_rate_per_ms)`; otherwise the pull leaves the Enable
State unchanged. -/
theorem c3_enable_transitions {C : Type} (E : Sid C) (s : State C)
    (hiasf : s.idle_after_silent_frames = iround (200 * s.frame_rate_per_ms)) :
    (∀ (now : ℚ) (port val : ℕ) (s' : State C),
      WriteToPort E now port val s = some s' →
        s'.is_enabled = true ∧ s'.unwritten_for_ms = 0) ∧
    (∀ (n : ℕ) (out : List ℤ) (s' : State C),
      MixerCallBack E n s = some (out, s') →
        s'.unwritten_for_ms = s.unwritten_for_ms + 1 ∧
        ∃ mid : State C, pullDeliver E n s = some (out, mid) ∧
          s'.is_enabled = (if 200 < s.unwritten_for_ms ∧
              iround (200 * s.frame_rate_per_ms) < (mid.silent_frames : ℤ) then false
            else s.is_enabled)) := by
  constructor
  · intro now port val s' hw
    obtain ⟨_, _, hunw, hen, _⟩ := writeToPort_spec E hw
    exact ⟨hen, hunw⟩
  · intro n out s' hmc
    obtain ⟨mid, hpd, hunw', _, _, _, _, _, _, _, _, _, hen'⟩ := mixerCallBack_spec E hmc
    obtain ⟨hunwm, _, henm, _, _, hiasfm, _, _, _⟩ := pullDeliver_spec E hpd
    refine ⟨by rw [hunw', hunwm], mid, hpd, ?_⟩
    rw [hen', hunwm, henm, hiasfm, hiasf]

theorem c3_enable_transitions_witness :
    WriteToPort E0 3 640 24 sW2 = some sW3 ∧
    sW3.is_enabled = true ∧ sW3.unwritten_for_ms = 0 ∧
    MixerCallBack E0 1 sW2 = some (pull1.1, pull1.2) ∧
    pull1.2.unwritten_for_ms = sW2.unwritten_for_ms + 1 ∧
    (∃ mid : State Unit, pullDeliver E0 1 sW2 = some (pull1.1, mid) ∧
      pull1.2.is_enabled = (if 200 < sW2.unwritten_for_ms ∧
          iround (200 * sW2.frame_rate_per_ms) < (mid.silent_frames : ℤ) then false
        else sW2.is_enabled)) := by
  have hc3 := c3_enable_transitions E0 sW2 (by decide)
  have hw := hc3.1 3 640 24 sW3 (by decide)
  have hp := hc3.2 1 pull1.1 pull1.2 (by decide)
  exact ⟨by decide, hw.1, hw.2, by decide, hp.1, hp.2⟩

/-- C4 (counterexample to the claim as stated): two register writes leave 2
samples in the Output Queue; a subsequent re-open resets the Timing State
but does NOT clear the queue — the new instance still holds the 2 stale
samples, contradicting "the Output Queue is reset to empty on every
open". -/
theorem c4_counterexample :
    Open "6581" "default" 50 50 640 1000 () (init Unit) = Except.ok sOpen ∧
    WriteToPort E0 0 640 24 sOpen = some sW1 ∧
    WriteToPort E0 2 640 24 sW1 = some sW2 ∧
    sW2.fifo.length = 2 ∧
    Open "6581" "default" 50 50 640 1000 () sW2 = Except.ok sReopen ∧
    sReopen.fifo.length = 2 := by
  refine ⟨by decide, by decide, by decide, by decide, by decide, by decide⟩

/-- C4 (amended): every successful open with model ≠ none resets the Timing
State (`last_render_time`, `unwritten_for_ms`, `silent_frames`) to zero and
leaves the channel disabled, but the Output Queue is NOT cleared: it
retains whatever a previously open instance left in it.  An open with model
"none" merely closes the instance (no configuration or derived state is
created): it returns exactly the closed state, which is not open and, if the
instance was open, holds no chip service. -/
theorem c4_open_resets_timing_not_queue {C : Type} (model clock : String) (f1 f2 : ℤ)
    (port hz : ℕ) (c0 : C) (s s' : State C) (hm : model ≠ "none")
    (h : Open model clock f1 f2 port hz c0 s = Except.ok s') :
    s'.last_render_time = 0 ∧ s'.unwritten_for_ms = 0 ∧ s'.silent_frames = 0 ∧
    s'.is_enabled = false ∧
    s'.fifo = s.fifo ∧
    Open "none" clock f1 f2 port hz c0 s = Except.ok (Close s) ∧
    (Close s).is_open = false ∧
    (s.is_open = true → (Close s).service = none) := by
  obtain ⟨hfifo, _, _, _, hcfg, _⟩ := open_spec h
  obtain ⟨hlrt, hunw, hsil, hen, _, _, _⟩ := hcfg hm
  refine ⟨hlrt, hunw, hsil, hen, hfifo, ?_, close_is_open s, fun ho => ?_⟩
  · simp only [Open]
    exact if_pos trivial
  · unfold Close
    rw [if_pos ho]

theorem c4_open_resets_timing_not_queue_witness :
    sReopen.last_render_time = 0 ∧ sReopen.unwritten_for_ms = 0 ∧
    sReopen.silent_frames = 0 ∧ sReopen.is_enabled = false ∧
    sReopen.fifo = sW2.fifo ∧
    Open "none" "default" 50 50 640 1000 () sW2 = Except.ok (Close sW2) ∧
    (Close sW2).is_open = false ∧
    (sW2.is_open = true → (Close sW2).service = none) :=
  c4_open_resets_timing_not_queue "6581" "default" 50 50 640 1000 () sW2 sReopen
    (by decide) (by decide)

theorem reachM_inv {C : Type} (E : Sid C) (s : State C) (h : ReachM E s) :
    (∀ p ∈ s.fifo, p.2 ≤ s.last_render_time) ∧
    (s.fifo ≠ [] → s.last_render_time ≤ s.g_clock) := by
  induction h with
  | boot model clock f1 f2 port hz c0 s' hopen =>
    obtain ⟨hfifo, _, _, _, _, _⟩ := open_spec hopen
    constructor
    · intro p hp
      rw [hfifo] at hp
      simp [init] at hp
    · intro hne
      rw [hfifo] at hne
      simp [init] at hne
  | write s now port val s' hs hmono hw ih =>
    obtain ⟨hlrt', hclk', _, _, _, _, _, _, htrue, hfalse⟩ := writeToPort_spec E hw
    obtain ⟨hqt, hlc⟩ := ih
    constructor
    · intro p hp
      rw [hlrt']
      by_cases hen : s.is_enabled = true
      · obtain ⟨l, _, hts, hfifo, _⟩ := htrue hen
        rw [hfifo] at hp
        rcases List.mem_append.mp hp with hold | hnew
        · have h1 : p.2 ≤ s.last_render_time := hqt p hold
          have h2 : s.last_render_time ≤ s.g_clock := hlc (List.ne_nil_of_mem hold)
          exact le_trans h1 (le_trans h2 hmono)
        · rw [hts p hnew]
      · obtain ⟨hfifo, _⟩ := hfalse (by simpa using hen)
        rw [hfifo] at hp
        have h1 : p.2 ≤ s.last_render_time := hqt p hp
        have h2 : s.last_render_time ≤ s.g_clock := hlc (List.ne_nil_of_mem hp)
        exact le_trans h1 (le_trans h2 hmono)
    · intro _
      rw [hlrt', hclk']
  | pull s n out s' hs hmc ih =>
    obtain ⟨mid, hpd, _, hfifo', hlrt', hclk', _, _, _, _, _, _, _⟩ := mixerCallBack_spec E hmc
    obtain ⟨_, hclkm, _, _, _, _, _, hnou, hu⟩ := pullDeliver_spec E hpd
    obtain ⟨hqt, hlc⟩ := ih
    by_cases hle : n ≤ s.fifo.length
    · obtain ⟨_, hmfifo, hmlrt, _, _⟩ := hnou hle
      constructor
      · intro p hp
        rw [hfifo', hmfifo] at hp
        rw [hlrt', hmlrt]
        exact hqt p (List.mem_of_mem_drop hp)
      · intro hne
        rw [hfifo', hmfifo] at hne
        rw [hlrt', hmlrt, hclk', hclkm]
        refine hlc ?_
        intro hnil
        rw [hnil] at hne
        simp at hne
    · push_neg at hle
      obtain ⟨fresh, _, _, hmfifo, _⟩ := hu hle
      constructor
      · intro p hp
        rw [hfifo', hmfifo] at hp
        simp at hp
      · intro hne
        rw [hfifo', hmfifo] at hne
        simp at hne

/-- C5 (counterexample to the claim as stated): over sequences that include
a re-open, the invariant fails — the re-open resets `last_render_time` to 0
while the queue still holds samples rendered for wall-clock time 2, i.e.
samples "from the future" relative to `last_render_time`. -/
theorem c5_counterexample :
    Open "6581" "default" 50 50 640 1000 () sW2 = Except.ok sReopen ∧
    ((0 : ℤ), (2 : ℚ)) ∈ sReopen.fifo ∧
    sReopen.last_render_time = 0 ∧
    ¬ ((2 : ℚ) ≤ sReopen.last_render_time) := by
  refine ⟨by decide, by decide, by decide, by decide⟩

/-- C5 (amended): in every state reachable from a single open by register
writes (with nondecreasing wall-clock timestamps) and mixer pulls, every
sample held in the Output Queue corresponds to a point in time — the
wall-clock time of the register write whose catch-up render produced it —
at most `last_render_time`: within one open the queue never holds samples
from the future.  (A re-open can violate this, since it resets
`last_render_time` without clearing the queue.) -/
theorem c5_queue_not_from_future {C : Type} (E : Sid C) (s : State C) (h : ReachM E s) :
    ∀ p ∈ s.fifo, p.2 ≤ s.last_render_time :=
  (reachM_inv E s h).1

theorem c5_queue_not_from_future_witness :
    (((0 : ℤ), (2 : ℚ))).2 ≤ sW2.last_render_time :=
  c5_queue_not_from_future E0 sW2
    (ReachM.write sW1 2 640 24 sW2
      (ReachM.write sOpen 0 640 24 sW1
        (ReachM.boot "6581" "default" 50 50 640 1000 () sOpen (by decide))
        (by decide) (by decide))
      (by decide) (by decide))
    ((0 : ℤ), (2 : ℚ)) (by decide)

theorem reachNU_inv {C : Type} (E : Sid C) (s : State C) (h : ReachNU E s) :
    s.g_pushed = s.g_delivered ++ s.fifo.map Prod.fst := by
  induction h with
  | start => simp [init]
  | reopen s model clock f1 f2 port hz c0 s' hs hopen ih =>
    obtain ⟨hfifo, hpush, hdel, _, _, _⟩ := open_spec hopen
    rw [hpush, hdel, hfifo, ih]
  | write s now port val s' hs hw ih =>
    obtain ⟨_, _, _, _, hdel, _, _, _, htrue, hfalse⟩ := writeToPort_spec E hw
    by_cases hen : s.is_enabled = true
    · obtain ⟨l, _, _, hfifo, hpush⟩ := htrue hen
      rw [hpush, hdel, hfifo, ih]
      simp [List.map_append, List.append_assoc]
    · obtain ⟨hfifo, hpush⟩ := hfalse (by simpa using hen)
      rw [hpush, hdel, hfifo, ih]
  | pull s n out s' hs hle hmc ih =>
    obtain ⟨mid, hpd, _, hfifo', _, _, hpush', hdel', _, _, _, _, _⟩ := mixerCallBack_spec E hmc
    obtain ⟨_, _, _, hpushm, _, _, hdelm, hnou, _⟩ := pullDeliver_spec E hpd
    obtain ⟨hout, hmfifo, _, _, _⟩ := hnou hle
    rw [hpush', hpushm, hdel', hdelm, hfifo', hmfifo, hout, ih]
    rw [List.append_assoc, ← List.map_append, List.take_append_drop]

/-- C9: under non-underrun operation (every pull requests at most the
number of queued samples), the samples handed to the mixer channel so far
(`g_delivered`) followed by the samples still queued are exactly the
samples pushed into the Output Queue (`g_pushed`), in strict production
order — no sample is delivered twice, skipped or reordered. -/
theorem c9_strict_production_order {C : Type} (E : Sid C) (s : State C) (h : ReachNU E s) :
    s.g_pushed = s.g_delivered ++ s.fifo.map Prod.fst :=
  reachNU_inv E s h

theorem c9_strict_production_order_witness :
    pull1.2.g_pushed = pull1.2.g_delivered ++ pull1.2.fifo.map Prod.fst :=
  c9_strict_production_order E0 pull1.2
    (ReachNU.pull sW2 1 pull1.1 pull1.2
      (ReachNU.write sW1 2 640 24 sW2
        (ReachNU.write sOpen 0 640 24 sW1
          (ReachNU.reopen (init Unit) "6581" "default" 50 50 640 1000 () sOpen
            ReachNU.start (by decide))
          (by decide))
        (by decide))
      (by decide) (by decide))

theorem open_service {C : Type} {model clock : String} {f1 f2 : ℤ} {port hz : ℕ} {c0 : C}
    {s s' : State C} (hm : model ≠ "none")
    (h : Open model clock f1 f2 port hz c0 s = Except.ok s') :
    ∃ clk : ℚ, s'.service = some
      { cfg := { chip_model := if model = "8580" then ChipModel.mos8580 else ChipModel.mos6581
                 filter_enabled := decide (0 < if model = "8580" then f2 else f1)
                 filter_6581_curve :=
                   if (if model = "8580" then ChipModel.mos8580 else ChipModel.mos6581) =
                       ChipModel.mos6581 ∧ 0 < (if model = "8580" then f2 else f1) then
                     some ((((if model = "8580" then f2 else f1) : ℤ) : ℚ) / 100)
                   else none
                 filter_8580_curve :=
                   if (if model = "8580" then ChipModel.mos8580 else ChipModel.mos6581) =
                       ChipModel.mos8580 ∧ 0 < (if model = "8580" then f2 else f1) then
                     some ((((if model = "8580" then f2 else f1) : ℤ) : ℚ) / 100)
                   else none
                 sampling := some (clk, (hz : ℚ), 9 / 10 * (hz : ℚ) / 2) }
        core := c0 } := by
  simp only [Open, if_neg hm] at h
  by_cases hclk : (if clock = "default" then (894886.25 : ℚ)
      else if clock = "c64ntsc" then 1022727.14
      else if clock = "c64pal" then 985250
      else if clock = "hardsid" then 1000000
      else (Close s).chip_clock) = 0
  · rw [if_pos hclk] at h
    exact Except.noConfusion h
  · rw [if_neg hclk] at h
    by_cases hport : port < 65536
    · rw [if_pos hport] at h
      simp only [Except.ok.injEq] at h
      subst h
      refine ⟨(if clock = "default" then (894886.25 : ℚ)
        else if clock = "c64ntsc" then 1022727.14
        else if clock = "c64pal" then 985250
        else if clock = "hardsid" then 1000000
        else (Close s).chip_clock), rfl⟩
    · rw [if_neg hport] at h
      exact Except.noConfusion h

/-- C8: on a successful open (model ≠ none), a filter strength of 0 (for the
selected model) leaves the chip's filtering disabled — `enableFilter` is
never called and no filter curve is set — while a strength 0 < s ≤ 100
enables filtering and sets exactly the selected model's filter curve
parameter to s / 100 (so 100 ↦ 1.0 and 37 ↦ 0.37); the other model's curve
setter is never called. -/
theorem c8_filter_strength {C : Type} (model clock : String) (f1 f2 : ℤ) (port hz : ℕ)
    (c0 : C) (s s' : State C) (hm : model ≠ "none")
    (h : Open model clock f1 f2 port hz c0 s = Except.ok s') :
    ∃ sv : Service C, s'.service = some sv ∧
      ((if model = "8580" then f2 else f1) = 0 →
        sv.cfg.filter_enabled = false ∧ sv.cfg.filter_6581_curve = none ∧
        sv.cfg.filter_8580_curve = none) ∧
      (0 < (if model = "8580" then f2 else f1) →
        (if model = "8580" then f2 else f1) ≤ 100 →
        sv.cfg.filter_enabled = true ∧
        (model = "8580" →
          sv.cfg.filter_8580_curve = some ((f2 : ℚ) / 100) ∧
          sv.cfg.filter_6581_curve = none) ∧
        (model ≠ "8580" →
          sv.cfg.filter_6581_curve = some ((f1 : ℚ) / 100) ∧
          sv.cfg.filter_8580_curve = none)) := by
  obtain ⟨clk, hsv⟩ := open_service hm h
  refine ⟨_, hsv, fun h0 => ?_, fun hpos hle => ?_⟩
  · by_cases hm8 : model = "8580"
    · simp [hm8] at h0
      refine ⟨?_, ?_, ?_⟩ <;> simp [hm8, h0]
    · simp [hm8] at h0
      refine ⟨?_, ?_, ?_⟩ <;> simp [hm8, h0]
  · refine ⟨?_, fun hm8 => ?_, fun hm8 => ?_⟩
    · by_cases hm8 : model = "8580"
      · simp [hm8] at hpos
        simp [hm8, hpos]
      · simp [hm8] at hpos
        simp [hm8, hpos]
    · simp [hm8] at hpos
      constructor <;> simp [hm8, hpos]
    · simp [hm8] at hpos
      constructor <;> simp [hm8, hpos]

theorem c8_filter_strength_witness :
    ∃ sv : Service Unit, s8580.service = some sv ∧
      ((if ("8580" : String) = "8580" then (37 : ℤ) else 50) = 0 →
        sv.cfg.filter_enabled = false ∧ sv.cfg.filter_6581_curve = none ∧
        sv.cfg.filter_8580_curve = none) ∧
      (0 < (if ("8580" : String) = "8580" then (37 : ℤ) else 50) →
        (if ("8580" : String) = "8580" then (37 : ℤ) else 50) ≤ 100 →
        sv.cfg.filter_enabled = true ∧
        (("8580" : String) = "8580" →
          sv.cfg.filter_8580_curve = some ((37 : ℚ) / 100) ∧
          sv.cfg.filter_6581_curve = none) ∧
        (("8580" : String) ≠ "8580" →
          sv.cfg.filter_6581_curve = some ((50 : ℚ) / 100) ∧
          sv.cfg.filter_8580_curve = none)) := by
  have hw := c8_filter_strength "8580" "default" 50 37 640 1000 () (init Unit) s8580
    (by decide) (by decide)
  exact_mod_cast hw
